import Mathlib

/-!
Verification of the ABAP remediation core (src/app/select.py, sort.py,
orderby.py, read_statement.py, app.py) against its specification.

The source text is modelled as `List Char` with absolute indices, exactly
mirroring Python string indexing.  Python `while` loops over an index are
embedded as fuel-consuming recursions; every fuelled function is wrapped
with fuel `length + 1` (each loop iteration advances the index by at least
one, so this fuel is never exhausted; the exhaustion branches return the
same fail-open value the loop would produce).  Python regular expressions
are hand-translated to explicit matchers with the same leftmost-match and
backtracking semantics.  Character classes (`isalnum`, `lower`, `isspace`)
are translated at their ASCII meaning, which is exact for the inputs of
this development.
-/

set_option maxRecDepth 16384
set_option maxHeartbeats 4000000

namespace Remed

open scoped List

/-- The double-quote character `"` (ABAP inline-comment marker). -/
def cDq : Char := Char.ofNat 34

/-- The single-quote character (ABAP string literal delimiter). -/
def cSq : Char := Char.ofNat 39

/-- The backtick character (ABAP string literal delimiter). -/
def cBt : Char := Char.ofNat 96

/-- The pipe character (ABAP string template delimiter). -/
def cPipe : Char := '|'

/-- Python `c.isalnum() or c == '_'` (ASCII), the `is_word_char` helper that
appears identically in all four source files. -/
def isWordChar (c : Char) : Bool :=
  c.isAlphanum || c = '_'

/-- Python `str.isspace` membership for the characters that can occur here
(ASCII whitespace; also the class matched by `\s` in the source regexes). -/
def pyIsSpace (c : Char) : Bool :=
  c = ' ' || c = '\t' || c = '\n' || c = '\r' || c = Char.ofNat 11 || c = Char.ofNat 12

/-- The whitespace set `(' ', '\t', '\r', '\n')` used by the explicit
whitespace-skipping loops in select.py and read_statement.py. -/
def isWsRT (c : Char) : Bool :=
  c = ' ' || c = '\t' || c = '\r' || c = '\n'

/-- Indexing `s[i]`; all uses in the source are guarded in-bounds. -/
def charAt (s : List Char) (i : Nat) : Char :=
  s.getD i (Char.ofNat 0)

/-- Python slice `s[a:b]` (for `0 ≤ a ≤ b`; clamps like Python). -/
def sliceL (s : List Char) (a b : Nat) : List Char :=
  (s.drop a).take (b - a)

/-- Python `c.lower()` (ASCII). -/
def toLow (c : Char) : Char := c.toLower

/-- Python `s.lower()` (ASCII). -/
def lowerL (s : List Char) : List Char := s.map toLow

/-- Python `s.find('\n', i)`: index of the first newline at or after `i`. -/
def findNl (s : List Char) (i : Nat) : Option Nat :=
  match (s.drop i).findIdx? (fun c => c = '\n') with
  | none => none
  | some k => some (i + k)

/-- `skip_line_comment` / `skip_full_line_star_comment` of sort.py,
orderby.py, read_statement.py: end-of-line index, or `len` if none. -/
def skipToEol (s : List Char) (i : Nat) : Nat :=
  match findNl s i with
  | none => s.length
  | some e => e

/-- Python `s.rfind('\n', 0, stop)`: index of the last newline before `stop`. -/
def rfindNl (s : List Char) (stop : Nat) : Option Nat :=
  match (s.take stop).reverse.findIdx? (fun c => c = '\n') with
  | none => none
  | some k => some (stop - 1 - k)

/-- Start-of-line index of the line containing position `pos`
(`rfind('\n',0,pos)` plus one, or `0`), a computation repeated in all
four source files. -/
def lineStart (s : List Char) (pos : Nat) : Nat :=
  match rfindNl s pos with
  | none => 0
  | some j => j + 1

/-- The leading spaces/tabs of the line containing `pos`, up to `pos`
(the `indent` computation of all four passes). -/
def indentAt (s : List Char) (pos : Nat) : List Char :=
  (sliceL s (lineStart s pos) pos).takeWhile (fun c => c = ' ' || c = '\t')

/-- `match_kw_at`: case-insensitive whole keyword `kw` at position `i`, with
word boundaries on both sides (identical in all four source files).
`kw` is given lower-case, as in every call site. -/
def matchKwAt (s : List Char) (i : Nat) (kw : List Char) : Bool :=
  let n := kw.length
  if i + n > s.length then false
  else if lowerL (sliceL s i (i + n)) ≠ kw then false
  else
    ((i = 0) || !isWordChar (charAt s (i - 1))) &&
    ((i + n = s.length) || !isWordChar (charAt s (i + n)))

/-- `at_statement_lead` of sort.py / orderby.py: `pos` is the first
non-space/tab character of its line and the line is not a `*` comment. -/
def atStatementLead (s : List Char) (pos : Nat) : Bool :=
  let ls := lineStart s pos
  let k := ls + ((sliceL s ls pos).takeWhile (fun c => c = ' ' || c = '\t')).length
  if k < s.length && charAt s k = '*' then false
  else k = pos

/-- Python `str.lstrip()`. -/
def pyLstrip (l : List Char) : List Char := l.dropWhile pyIsSpace

/-- Python `str.rstrip()`. -/
def pyRstrip (l : List Char) : List Char := (l.reverse.dropWhile pyIsSpace).reverse

/-- Python `str.strip()`. -/
def pyStrip (l : List Char) : List Char := pyLstrip (pyRstrip l)

/-- Python `str.rstrip(',')`. -/
def rstripCommas (l : List Char) : List Char :=
  (l.reverse.dropWhile (fun c => c = ',')).reverse

/-- `s` contains character `c` (Python `c in s`). -/
def hasChar (s : List Char) (c : Char) : Bool := s.any (fun d => d = c)

/-- Maximal run of characters satisfying `p` starting at index `i`. -/
def runLen (s : List Char) (i : Nat) (p : Char → Bool) : Nat :=
  ((s.drop i).takeWhile p).length

/-- `find_statement_period` (identical in sort.py, orderby.py and
read_statement.py; select.py's variant is step-for-step equivalent, see
`findPeriodSel`): index of the `.` terminating the statement at `start`,
skipping comments, quoted strings and templates (with doubled-delimiter
escapes).  Fuelled; one fuel unit per loop iteration. -/
def findPeriodF (s : List Char) : Nat → Nat → Bool → Bool → Bool → Option Nat
  | 0, _, _, _, _ => none
  | fuel + 1, i, sq, bt, tpl =>
    if i < s.length then
      let c := charAt s i
      if !sq && !bt && !tpl then
        if c = cDq then findPeriodF s fuel (skipToEol s i) sq bt tpl
        else if c = '*' && (i = 0 || charAt s (i - 1) = '\n') then
          findPeriodF s fuel (skipToEol s i) sq bt tpl
        else if c = cSq then findPeriodF s fuel (i + 1) true bt tpl
        else if c = cBt then findPeriodF s fuel (i + 1) sq true tpl
        else if c = cPipe then findPeriodF s fuel (i + 1) sq bt true
        else if c = '.' then some i
        else findPeriodF s fuel (i + 1) sq bt tpl
      else if sq then
        if c = cSq then
          if i + 1 < s.length && charAt s (i + 1) = cSq then
            findPeriodF s fuel (i + 2) sq bt tpl
          else findPeriodF s fuel (i + 1) false bt tpl
        else findPeriodF s fuel (i + 1) sq bt tpl
      else if bt then
        if c = cBt then
          if i + 1 < s.length && charAt s (i + 1) = cBt then
            findPeriodF s fuel (i + 2) sq bt tpl
          else findPeriodF s fuel (i + 1) sq false tpl
        else findPeriodF s fuel (i + 1) sq bt tpl
      else
        if c = cPipe then
          if i + 1 < s.length && charAt s (i + 1) = cPipe then
            findPeriodF s fuel (i + 2) sq bt tpl
          else findPeriodF s fuel (i + 1) sq bt false
        else findPeriodF s fuel (i + 1) sq bt tpl
    else none

/-- `find_statement_period` with its always-sufficient fuel. -/
def findPeriod (s : List Char) (start : Nat) : Option Nat :=
  findPeriodF s (s.length + 1) start false false false

/-- `find_kw` of sort.py / orderby.py (identical in both): first occurrence
of keyword `kw` at or after `start`, outside comments, strings and
templates. -/
def findKwF (s : List Char) (kw : List Char) : Nat → Nat → Bool → Bool → Bool → Option Nat
  | 0, _, _, _, _ => none
  | fuel + 1, i, sq, bt, tpl =>
    if i < s.length then
      let c := charAt s i
      if !sq && !bt && !tpl then
        if c = cDq then findKwF s kw fuel (skipToEol s i + 1) sq bt tpl
        else if c = '*' && (i = 0 || charAt s (i - 1) = '\n') then
          findKwF s kw fuel (skipToEol s i + 1) sq bt tpl
        else if c = cSq then findKwF s kw fuel (i + 1) true bt tpl
        else if c = cBt then findKwF s kw fuel (i + 1) sq true tpl
        else if c = cPipe then findKwF s kw fuel (i + 1) sq bt true
        else if matchKwAt s i kw then some i
        else findKwF s kw fuel (i + 1) sq bt tpl
      else if sq then
        if c = cSq then
          if i + 1 < s.length && charAt s (i + 1) = cSq then
            findKwF s kw fuel (i + 2) sq bt tpl
          else findKwF s kw fuel (i + 1) false bt tpl
        else findKwF s kw fuel (i + 1) sq bt tpl
      else if bt then
        if c = cBt then
          if i + 1 < s.length && charAt s (i + 1) = cBt then
            findKwF s kw fuel (i + 2) sq bt tpl
          else findKwF s kw fuel (i + 1) sq false tpl
        else findKwF s kw fuel (i + 1) sq bt tpl
      else
        if c = cPipe then
          if i + 1 < s.length && charAt s (i + 1) = cPipe then
            findKwF s kw fuel (i + 2) sq bt tpl
          else findKwF s kw fuel (i + 1) sq bt false
        else findKwF s kw fuel (i + 1) sq bt tpl
    else none

/-- `find_kw` (sort.py / orderby.py) with its always-sufficient fuel. -/
def findKw (s : List Char) (kw : List Char) (start : Nat) : Option Nat :=
  findKwF s kw (s.length + 1) start false false false

/-- `find_kw` of select.py.  Note: unlike the sort/orderby variant, this
loop never sets its string-state flags (its in-string branches are dead
code), so it skips comments but scans straight through quoted strings. -/
def findKwSelF (s : List Char) (kw : List Char) : Nat → Nat → Option Nat
  | 0, _ => none
  | fuel + 1, i =>
    if i < s.length then
      let c := charAt s i
      if c = cDq then findKwSelF s kw fuel (skipToEol s i + 1)
      else if c = '*' && (i = 0 || charAt s (i - 1) = '\n') then
        findKwSelF s kw fuel (skipToEol s i + 1)
      else if matchKwAt s i kw then some i
      else findKwSelF s kw fuel (i + 1)
    else none

/-- select.py's `find_kw` with its always-sufficient fuel. -/
def findKwSel (s : List Char) (kw : List Char) (start : Nat) : Option Nat :=
  findKwSelF s kw (s.length + 1) start

/-- `find_next_any_kw` of select.py: earliest occurrence among `kws`
(ties impossible; list order breaks none), using select.py's `find_kw`. -/
def findNextAnyKwSel (s : List Char) (kws : List (List Char)) (start : Nat) : Option Nat :=
  kws.foldl
    (fun best kw =>
      match findKwSel s kw start with
      | none => best
      | some idx =>
        match best with
        | none => some idx
        | some b => if idx < b then some idx else some b)
    none

/-- `find_next_any_kw` of orderby.py, over orderby's string-aware `find_kw`. -/
def findNextAnyKw (s : List Char) (kws : List (List Char)) (start : Nat) : Option Nat :=
  kws.foldl
    (fun best kw =>
      match findKw s kw start with
      | none => best
      | some idx =>
        match best with
        | none => some idx
        | some b => if idx < b then some idx else some b)
    none

/-- First `p ∈ positions` with `f p = some x`, the leftmost-match driver for
the hand-translated regex searches. -/
def firstSome {α : Type} (f : Nat → Option α) : List Nat → Option α
  | [] => none
  | p :: ps =>
    match f p with
    | some x => some x
    | none => firstSome f ps

/-- Regex `\b` on the left of a word character at `p`. -/
def bLeft (s : List Char) (p : Nat) : Bool :=
  p = 0 || !isWordChar (charAt s (p - 1))

/-- Regex `\b` on the right of a word character ending before `p`. -/
def bRight (s : List Char) (p : Nat) : Bool :=
  p = s.length || !isWordChar (charAt s p)

/-- Case-insensitive literal `lit` (given lower-case) at `p`; returns the
position after it. -/
def litCI (s : List Char) (p : Nat) (lit : List Char) : Option Nat :=
  if lowerL (sliceL s p (p + lit.length)) = lit then some (p + lit.length) else none

/-- Regex `\s+` at `p` (maximal run; the source patterns always follow it
with a non-`\s` atom, so the maximal run is the unique match). -/
def wsPlus (s : List Char) (p : Nat) : Option Nat :=
  let r := runLen s p pyIsSpace
  if r = 0 then none else some (p + r)

/-- Regex `\s*` at `p` (maximal run, unique for the same reason). -/
def wsStar (s : List Char) (p : Nat) : Nat :=
  p + runLen s p pyIsSpace

/-- Regex `\d+` at `p` (maximal run). -/
def digPlus (s : List Char) (p : Nat) : Option Nat :=
  let r := runLen s p (fun c => c.isDigit)
  if r = 0 then none else some (p + r)

/-- Regex `[A-Za-z_]\w*` at `p` (maximal): returns (end, matched text). -/
def matchIdent (s : List Char) (p : Nat) : Option (Nat × List Char) :=
  if p < s.length && (charAt s p).isAlpha || p < s.length && charAt s p = '_' then
    let rest := (s.drop (p + 1)).takeWhile isWordChar
    some (p + 1 + rest.length, charAt s p :: rest)
  else none

/-- Matcher for `(?i)\bSINGLE\b` at `p` — exactly `matchKwAt` with `single`. -/
def matchSingleAt (s : List Char) (p : Nat) : Bool :=
  matchKwAt s p ("single".toList)

/-- `remove_single` of select.py: `re.sub(r'(?i)\bSINGLE\b', '', stmt)`,
removing every (leftmost, non-overlapping) match. -/
def removeSingleF (s : List Char) : Nat → Nat → List Char → List Char
  | 0, i, acc => acc ++ s.drop i
  | fuel + 1, i, acc =>
    if i < s.length then
      if matchSingleAt s i then removeSingleF s fuel (i + 6) acc
      else removeSingleF s fuel (i + 1) (acc ++ [charAt s i])
    else acc

/-- `remove_single` with its always-sufficient fuel. -/
def removeSingle (s : List Char) : List Char :=
  removeSingleF s (s.length + 1) 0 []

/-- Matcher for `\bUP\s+TO\s+\d+\s+ROWS\b` (case-insensitive) at `p`:
returns the end position of the match. -/
def matchUpToRowsAt (s : List Char) (p : Nat) : Option Nat :=
  if bLeft s p then
    match litCI s p ("up".toList) with
    | none => none
    | some p1 =>
      match wsPlus s p1 with
      | none => none
      | some p2 =>
        match litCI s p2 ("to".toList) with
        | none => none
        | some p3 =>
          match wsPlus s p3 with
          | none => none
          | some p4 =>
            match digPlus s p4 with
            | none => none
            | some p5 =>
              match wsPlus s p5 with
              | none => none
              | some p6 =>
                match litCI s p6 ("rows".toList) with
                | none => none
                | some p7 => if bRight s p7 then some p7 else none
  else none

/-- `remove_any_up_to_rows` of select.py: `up_to_rows_re.sub('', stmt)`. -/
def removeUpToRowsF (s : List Char) : Nat → Nat → List Char → List Char
  | 0, i, acc => acc ++ s.drop i
  | fuel + 1, i, acc =>
    if i < s.length then
      match matchUpToRowsAt s i with
      | some e => removeUpToRowsF s fuel e acc
      | none => removeUpToRowsF s fuel (i + 1) (acc ++ [charAt s i])
    else acc

/-- `remove_any_up_to_rows` with its always-sufficient fuel. -/
def removeUpToRows (s : List Char) : List Char :=
  removeUpToRowsF s (s.length + 1) 0 []

/-- `normalize_spaces` of select.py / orderby.py: each maximal run of
spaces/tabs becomes a single space unless the run contains a tab (the
replacement callback keeps runs containing `\t`; a run of `[ \t]+` can
never contain `\n`). -/
def normalizeSpacesF (s : List Char) : Nat → Nat → List Char → List Char
  | 0, i, acc => acc ++ s.drop i
  | fuel + 1, i, acc =>
    if i < s.length then
      let c := charAt s i
      if c = ' ' || c = '\t' then
        let run := (s.drop i).takeWhile (fun d => d = ' ' || d = '\t')
        let acc' := if hasChar run '\t' then acc ++ run else acc ++ [' ']
        normalizeSpacesF s fuel (i + run.length) acc'
      else normalizeSpacesF s fuel (i + 1) (acc ++ [c])
    else acc

/-- `normalize_spaces` with its always-sufficient fuel. -/
def normalizeSpaces (s : List Char) : List Char :=
  normalizeSpacesF s (s.length + 1) 0 []

/-- `skip_ws_and_comments` of select.py: skip whitespace, full-line `*`
comments (consumed up to, not past, the newline) and inline `"` comments. -/
def skipWsAndCommentsF (s : List Char) : Nat → Nat → Nat
  | 0, i => i
  | fuel + 1, i =>
    let i1 := i + runLen s i isWsRT
    if i1 ≥ s.length then i1
    else if charAt s i1 = '*' && (i1 = 0 || charAt s (i1 - 1) = '\n') then
      skipWsAndCommentsF s fuel (skipToEol s i1)
    else if charAt s i1 = cDq then
      skipWsAndCommentsF s fuel (skipToEol s i1)
    else i1

/-- `skip_ws_and_comments` with its always-sufficient fuel. -/
def skipWsAndComments (s : List Char) (i : Nat) : Nat :=
  skipWsAndCommentsF s (s.length + 1) i

/-- `has_endselect_after` of select.py: after skipping whitespace/comments
past the period, the next ten characters spell `endselect.`. -/
def hasEndselectAfter (s : List Char) (periodPos : Nat) : Bool :=
  let i := skipWsAndComments s (periodPos + 1)
  i < s.length && lowerL (sliceL s i (i + 10)) = "endselect.".toList

/-- The whitespace/comment skip inside select.py's SELECT-SINGLE detector
(with its `eol = n - 1` quirk when no newline remains). -/
def skipAfterF (s : List Char) : Nat → Nat → Nat
  | 0, a => a
  | fuel + 1, a =>
    let a1 := a + runLen s a isWsRT
    if a1 < s.length && charAt s a1 = cDq then
      let e := match findNl s a1 with | none => s.length - 1 | some e => e
      skipAfterF s fuel (e + 1)
    else if a1 < s.length && charAt s a1 = '*' && (a1 = 0 || charAt s (a1 - 1) = '\n') then
      let e := match findNl s a1 with | none => s.length - 1 | some e => e
      skipAfterF s fuel (e + 1)
    else a1

/-- The detector's whitespace/comment skip with its always-sufficient fuel. -/
def skipAfter (s : List Char) (a : Nat) : Nat :=
  skipAfterF s (s.length + 1) a

/-- The `select` literal check of select.py's scanner (six characters,
case-insensitive, right word boundary only — select.py checks no left
boundary and no statement-lead position). -/
def selectAt (s : List Char) (k : Nat) : Bool :=
  lowerL (sliceL s k (k + 6)) = "select".toList &&
    (k + 6 = s.length || !isWordChar (charAt s (k + 6)))

/-- The `single` token check after the skip, in select.py's scanner. -/
def singleAt (s : List Char) (a : Nat) : Bool :=
  a < s.length && lowerL (sliceL s a (a + 6)) = "single".toList &&
    (a + 6 = s.length || !isWordChar (charAt s (a + 6)))

/-- select.py's lightweight scanner for the next `SELECT` immediately
followed (over whitespace/comments) by `SINGLE`, outside strings,
templates and comments.  `none` covers both the scanner's exhaustion and
its early `return` on a comment reaching end of text: in either case the
caller emits the rest of the input unchanged and stops. -/
def scanSelF (s : List Char) : Nat → Nat → Bool → Bool → Bool → Option Nat
  | 0, _, _, _, _ => none
  | fuel + 1, k, sq, bt, tpl =>
    if k < s.length then
      let c := charAt s k
      if !sq && !bt && !tpl then
        if c = cDq then
          match findNl s k with
          | none => none
          | some e => scanSelF s fuel (e + 1) sq bt tpl
        else if c = '*' && (k = 0 || charAt s (k - 1) = '\n') then
          match findNl s k with
          | none => none
          | some e => scanSelF s fuel (e + 1) sq bt tpl
        else if c = cSq then scanSelF s fuel (k + 1) true bt tpl
        else if c = cBt then scanSelF s fuel (k + 1) sq true tpl
        else if c = cPipe then scanSelF s fuel (k + 1) sq bt true
        else if selectAt s k then
          if singleAt s (skipAfter s (k + 6)) then some k
          else scanSelF s fuel (k + 1) sq bt tpl
        else scanSelF s fuel (k + 1) sq bt tpl
      else if sq then
        if c = cSq then
          if k + 1 < s.length && charAt s (k + 1) = cSq then
            scanSelF s fuel (k + 2) sq bt tpl
          else scanSelF s fuel (k + 1) false bt tpl
        else scanSelF s fuel (k + 1) sq bt tpl
      else if bt then
        if c = cBt then
          if k + 1 < s.length && charAt s (k + 1) = cBt then
            scanSelF s fuel (k + 2) sq bt tpl
          else scanSelF s fuel (k + 1) sq false tpl
        else scanSelF s fuel (k + 1) sq bt tpl
      else
        if c = cPipe then
          if k + 1 < s.length && charAt s (k + 1) = cPipe then
            scanSelF s fuel (k + 2) sq bt tpl
          else scanSelF s fuel (k + 1) sq bt false
        else scanSelF s fuel (k + 1) sq bt tpl
    else none

/-- select.py's scanner with its always-sufficient fuel. -/
def scanSel (s : List Char) (i : Nat) : Option Nat :=
  scanSelF s (s.length + 1) i false false false

/-- The statement-lead `SELECT` scanner shared verbatim by sort.py and
orderby.py: next `select` token at statement lead, outside strings,
templates and comments. -/
def scanStmtSelF (s : List Char) : Nat → Nat → Bool → Bool → Bool → Option Nat
  | 0, _, _, _, _ => none
  | fuel + 1, k, sq, bt, tpl =>
    if k < s.length then
      let c := charAt s k
      if !sq && !bt && !tpl then
        if c = cDq then
          let e := skipToEol s k
          scanStmtSelF s fuel (if e < s.length then e + 1 else e) sq bt tpl
        else if c = '*' && (k = 0 || charAt s (k - 1) = '\n') then
          let e := skipToEol s k
          scanStmtSelF s fuel (if e < s.length then e + 1 else e) sq bt tpl
        else if c = cSq then scanStmtSelF s fuel (k + 1) true bt tpl
        else if c = cBt then scanStmtSelF s fuel (k + 1) sq true tpl
        else if c = cPipe then scanStmtSelF s fuel (k + 1) sq bt true
        else if selectAt s k && atStatementLead s k then some k
        else scanStmtSelF s fuel (k + 1) sq bt tpl
      else if sq then
        if c = cSq then
          if k + 1 < s.length && charAt s (k + 1) = cSq then
            scanStmtSelF s fuel (k + 2) sq bt tpl
          else scanStmtSelF s fuel (k + 1) false bt tpl
        else scanStmtSelF s fuel (k + 1) sq bt tpl
      else if bt then
        if c = cBt then
          if k + 1 < s.length && charAt s (k + 1) = cBt then
            scanStmtSelF s fuel (k + 2) sq bt tpl
          else scanStmtSelF s fuel (k + 1) sq false tpl
        else scanStmtSelF s fuel (k + 1) sq bt tpl
      else
        if c = cPipe then
          if k + 1 < s.length && charAt s (k + 1) = cPipe then
            scanStmtSelF s fuel (k + 2) sq bt tpl
          else scanStmtSelF s fuel (k + 1) sq bt false
        else scanStmtSelF s fuel (k + 1) sq bt tpl
    else none

/-- The sort/orderby scanner with its always-sufficient fuel. -/
def scanStmtSel (s : List Char) (i : Nat) : Option Nat :=
  scanStmtSelF s (s.length + 1) i false false false

/-- read_statement.py's scanner: next `read` keyword followed (over
whitespace) by a `table` keyword, outside strings, templates and comments. -/
def scanReadF (s : List Char) : Nat → Nat → Bool → Bool → Bool → Option Nat
  | 0, _, _, _, _ => none
  | fuel + 1, k, sq, bt, tpl =>
    if k < s.length then
      let c := charAt s k
      if !sq && !bt && !tpl then
        if c = cDq then
          let e := skipToEol s k
          scanReadF s fuel (if e < s.length then e + 1 else e) sq bt tpl
        else if c = '*' && (k = 0 || charAt s (k - 1) = '\n') then
          let e := skipToEol s k
          scanReadF s fuel (if e < s.length then e + 1 else e) sq bt tpl
        else if c = cSq then scanReadF s fuel (k + 1) true bt tpl
        else if c = cBt then scanReadF s fuel (k + 1) sq true tpl
        else if c = cPipe then scanReadF s fuel (k + 1) sq bt true
        else if matchKwAt s k ("read".toList) &&
            matchKwAt s (k + 4 + runLen s (k + 4) isWsRT) ("table".toList) then some k
        else scanReadF s fuel (k + 1) sq bt tpl
      else if sq then
        if c = cSq then
          if k + 1 < s.length && charAt s (k + 1) = cSq then
            scanReadF s fuel (k + 2) sq bt tpl
          else scanReadF s fuel (k + 1) false bt tpl
        else scanReadF s fuel (k + 1) sq bt tpl
      else if bt then
        if c = cBt then
          if k + 1 < s.length && charAt s (k + 1) = cBt then
            scanReadF s fuel (k + 2) sq bt tpl
          else scanReadF s fuel (k + 1) sq false tpl
        else scanReadF s fuel (k + 1) sq bt tpl
      else
        if c = cPipe then
          if k + 1 < s.length && charAt s (k + 1) = cPipe then
            scanReadF s fuel (k + 2) sq bt tpl
          else scanReadF s fuel (k + 1) sq bt false
        else scanReadF s fuel (k + 1) sq bt tpl
    else none

/-- The read scanner with its always-sufficient fuel. -/
def scanRead (s : List Char) (i : Nat) : Option Nat :=
  scanReadF s (s.length + 1) i false false false

/-- Matcher for `\bfor\s+all\s+entries\b` (case-insensitive) at `p`. -/
def matchFaeAt (s : List Char) (p : Nat) : Bool :=
  if bLeft s p then
    match litCI s p ("for".toList) with
    | none => false
    | some p1 =>
      match wsPlus s p1 with
      | none => false
      | some p2 =>
        match litCI s p2 ("all".toList) with
        | none => false
        | some p3 =>
          match wsPlus s p3 with
          | none => false
          | some p4 =>
            match litCI s p4 ("entries".toList) with
            | none => false
            | some p5 => bRight s p5
  else false

/-- Matcher for `\border\s+by\b` (case-insensitive) at `p`. -/
def matchObAt (s : List Char) (p : Nat) : Bool :=
  if bLeft s p then
    match litCI s p ("order".toList) with
    | none => false
    | some p1 =>
      match wsPlus s p1 with
      | none => false
      | some p2 =>
        match litCI s p2 ("by".toList) with
        | none => false
        | some p3 => bRight s p3
  else false

/-- `has_for_all_entries` of sort.py: a bare `fae_re.search(stmt)` over the
raw statement text (comments and string literals included). -/
def hasFaeRaw (stmt : List Char) : Bool :=
  (List.range stmt.length).any (matchFaeAt stmt)

/-- `phrase_re.search(s, i)` for the two orderby.py phrase regexes:
leftmost match position at or after `i`. -/
def phraseSearch (matchAt : List Char → Nat → Bool) (s : List Char) (i : Nat) : Option Nat :=
  firstSome (fun p => if matchAt s p then some p else none) (List.range' i (s.length - i))

/-- `find_phrase` of orderby.py: scan in lexical state; at the first
code-state position that is not a comment or string opener, fall back to a
plain regex search over the remainder (so a phrase inside a later string
is still found — this is the source's behaviour). -/
def findPhraseF (matchAt : List Char → Nat → Bool) (s : List Char) :
    Nat → Nat → Bool → Bool → Bool → Option Nat
  | 0, _, _, _, _ => none
  | fuel + 1, i, sq, bt, tpl =>
    if i < s.length then
      let c := charAt s i
      if !sq && !bt && !tpl then
        if c = cDq then findPhraseF matchAt s fuel (skipToEol s i + 1) sq bt tpl
        else if c = '*' && (i = 0 || charAt s (i - 1) = '\n') then
          findPhraseF matchAt s fuel (skipToEol s i + 1) sq bt tpl
        else if c = cSq then findPhraseF matchAt s fuel (i + 1) true bt tpl
        else if c = cBt then findPhraseF matchAt s fuel (i + 1) sq true tpl
        else if c = cPipe then findPhraseF matchAt s fuel (i + 1) sq bt true
        else phraseSearch matchAt s i
      else if sq then
        if c = cSq then
          if i + 1 < s.length && charAt s (i + 1) = cSq then
            findPhraseF matchAt s fuel (i + 2) sq bt tpl
          else findPhraseF matchAt s fuel (i + 1) false bt tpl
        else findPhraseF matchAt s fuel (i + 1) sq bt tpl
      else if bt then
        if c = cBt then
          if i + 1 < s.length && charAt s (i + 1) = cBt then
            findPhraseF matchAt s fuel (i + 2) sq bt tpl
          else findPhraseF matchAt s fuel (i + 1) sq false tpl
        else findPhraseF matchAt s fuel (i + 1) sq bt tpl
      else
        if c = cPipe then
          if i + 1 < s.length && charAt s (i + 1) = cPipe then
            findPhraseF matchAt s fuel (i + 2) sq bt tpl
          else findPhraseF matchAt s fuel (i + 1) sq bt false
        else findPhraseF matchAt s fuel (i + 1) sq bt tpl
    else none

/-- `find_phrase` with its always-sufficient fuel. -/
def findPhrase (matchAt : List Char → Nat → Bool) (s : List Char) (i : Nat) : Option Nat :=
  findPhraseF matchAt s (s.length + 1) i false false false

/-- `has_for_all_entries` of orderby.py. -/
def hasFaeOb (stmt : List Char) : Bool :=
  (findPhrase matchFaeAt stmt 0).isSome

/-- `has_order_by` of orderby.py. -/
def hasOrderByOb (stmt : List Char) : Bool :=
  (findPhrase matchObAt stmt 0).isSome

/-- The `@data\s*\(\s*([A-Za-z_]\w*)\s*\)` branch of sort.py's
`target_tbl_re`. -/
def matchT1 (s : List Char) (p : Nat) : Option (List Char) :=
  match litCI s p ("@data".toList) with
  | none => none
  | some p1 =>
    let p2 := wsStar s p1
    if p2 < s.length && charAt s p2 = '(' then
      let p3 := wsStar s (p2 + 1)
      match matchIdent s p3 with
      | none => none
      | some (p4, idt) =>
        let p5 := wsStar s p4
        if p5 < s.length && charAt s p5 = ')' then some idt else none
    else none

/-- The `@?([A-Za-z_]\w*)` branch of sort.py's `target_tbl_re` (a consumed
`@` commits: backtracking cannot help, since `[A-Za-z_]` never matches `@`). -/
def matchT2 (s : List Char) (p : Nat) : Option (List Char) :=
  if p < s.length && charAt s p = '@' then
    match matchIdent s (p + 1) with
    | none => none
    | some (_, idt) => some idt
  else
    match matchIdent s p with
    | none => none
    | some (_, idt) => some idt

/-- Alternation `t1 | t2` of `target_tbl_re` (ordered). -/
def matchTargetTail (s : List Char) (p : Nat) : Option (List Char) :=
  match matchT1 s p with
  | some t => some t
  | none => matchT2 s p

/-- Optional `table\s+` group of `target_tbl_re`, with backtracking: try
with the group, and on failure of the tail, without it. -/
def afterTable (s : List Char) (p : Nat) : Option (List Char) :=
  let withTable :=
    match litCI s p ("table".toList) with
    | none => none
    | some p1 =>
      match wsPlus s p1 with
      | none => none
      | some p2 => matchTargetTail s p2
  match withTable with
  | some t => some t
  | none => matchTargetTail s p

/-- Optional `corresponding\s+fields\s+of\s+` group of `target_tbl_re`,
with backtracking. -/
def afterCorr (s : List Char) (p : Nat) : Option (List Char) :=
  let withCorr :=
    match litCI s p ("corresponding".toList) with
    | none => none
    | some p1 =>
      match wsPlus s p1 with
      | none => none
      | some p2 =>
        match litCI s p2 ("fields".toList) with
        | none => none
        | some p3 =>
          match wsPlus s p3 with
          | none => none
          | some p4 =>
            match litCI s p4 ("of".toList) with
            | none => none
            | some p5 =>
              match wsPlus s p5 with
              | none => none
              | some p6 => afterTable s p6
  match withCorr with
  | some t => some t
  | none => afterTable s p

/-- `target_tbl_re` matched at position `p`:
`\b(?:into|appending)\s+(?:corresponding\s+fields\s+of\s+)?(?:table\s+)?(@data\(t1\)|@?t2)`. -/
def matchTargetAt (s : List Char) (p : Nat) : Option (List Char) :=
  if bLeft s p then
    let kwEnd :=
      match litCI s p ("into".toList) with
      | some p1 => some p1
      | none => litCI s p ("appending".toList)
    match kwEnd with
    | none => none
    | some p1 =>
      match wsPlus s p1 with
      | none => none
      | some p2 => afterCorr s p2
  else none

/-- `extract_target_table` of sort.py: leftmost `target_tbl_re` match. -/
def extractTargetTable (stmt : List Char) : Option (List Char) :=
  firstSome (matchTargetAt stmt) (List.range stmt.length)

/-- `extract_select_list` (identical in sort.py and orderby.py): the text
between the `select` keyword and the `from` keyword, stripped. -/
def extractSelectList (stmt : List Char) : List Char :=
  match findKw stmt ("select".toList) 0 with
  | none => []
  | some selIdx =>
    let i0 := selIdx + 6
    let i1 := i0 + runLen stmt i0 pyIsSpace
    match findKw stmt ("from".toList) i1 with
    | none => []
    | some fromIdx => pyStrip (sliceL stmt i1 fromIdx)

/-- `next_executable_line_start` of sort.py: first character of the next
non-blank, non-comment line at or after `start`. -/
def nextExecLineStartF (s : List Char) : Nat → Nat → Nat
  | 0, _ => s.length
  | fuel + 1, i =>
    if i < s.length then
      if i = 0 || charAt s (i - 1) = '\n' then
        let j := i + runLen s i (fun c => c = ' ' || c = '\t')
        if j ≥ s.length then s.length
        else if charAt s j = '\n' then nextExecLineStartF s fuel (j + 1)
        else if charAt s j = '*' then nextExecLineStartF s fuel (skipToEol s j + 1)
        else if charAt s j = cDq then nextExecLineStartF s fuel (skipToEol s j + 1)
        else j
      else nextExecLineStartF s fuel (i + 1)
    else s.length

/-- `next_executable_line_start` with its always-sufficient fuel. -/
def nextExecLineStart (s : List Char) (start : Nat) : Nat :=
  nextExecLineStartF s (s.length + 1) start

/-- `prev_executable_line_start` of read_statement.py: first non-space
character of the closest previous non-empty, non-comment line (the Python
function returns `-1` when there is none, modelled as `none`). -/
def prevExecLineStartF (s : List Char) : Nat → Nat → Option Nat
  | 0, _ => none
  | fuel + 1, i =>
    if i > 0 then
      let ls := lineStart s i
      let k := ls + ((sliceL s ls i).takeWhile (fun c => c = ' ' || c = '\t')).length
      if k ≥ i || (k < s.length && (charAt s k = '\n' || charAt s k = '\r')) then
        prevExecLineStartF s fuel (if ls > 0 then ls - 1 else 0)
      else if charAt s k = '*' then
        prevExecLineStartF s fuel (if ls > 0 then ls - 1 else 0)
      else if charAt s k = cDq then
        prevExecLineStartF s fuel (if ls > 0 then ls - 1 else 0)
      else some k
    else none

/-- `prev_executable_line_start` with its always-sufficient fuel. -/
def prevExecLineStart (s : List Char) (pos : Nat) : Option Nat :=
  prevExecLineStartF s (s.length + 1) pos

/-- Python `str.split()` (whitespace words, no empties). -/
def splitWsGo : List Char → List Char → List (List Char)
  | [], cur => if cur = [] then [] else [cur]
  | c :: rest, cur =>
    if pyIsSpace c then
      if cur = [] then splitWsGo rest [] else cur :: splitWsGo rest []
    else splitWsGo rest (cur ++ [c])

/-- Python `str.split()`. -/
def splitWs (l : List Char) : List (List Char) := splitWsGo l []

/-- Python `str.split(' ')` (split on every single space, keeping empties). -/
def splitSpGo : List Char → List Char → List (List Char)
  | [], cur => [cur]
  | c :: rest, cur =>
    if c = ' ' then cur :: splitSpGo rest [] else splitSpGo rest (cur ++ [c])

/-- Python `str.split(' ')`. -/
def splitSp (l : List Char) : List (List Char) := splitSpGo l []

/-- Python `' '.join`. -/
def joinSp (xs : List (List Char)) : List Char := List.intercalate [' '] xs

/-- Python `', '.join`. -/
def joinCommaSp (xs : List (List Char)) : List Char := List.intercalate (", ".toList) xs

/-- Leftmost `(?i)\bas\b` match in an item: `(start, end)`. -/
def searchAsCI (t : List Char) : Option (Nat × Nat) :=
  firstSome
    (fun p =>
      if bLeft t p then
        match litCI t p ("as".toList) with
        | none => none
        | some e => if bRight t e then some (p, e) else none
      else none)
    (List.range t.length)

/-- Regex `^[A-Za-z_]\w*$` full match (sort.py's identifier filter). -/
def isIdentFull (t : List Char) : Bool :=
  match matchIdent t 0 with
  | none => false
  | some (e, _) => e = t.length

/-- Regex `^[A-Za-z_]\w*(~[A-Za-z_]\w*)?$` full match (orderby.py's
parenthesis-unwrapping filter). -/
def isIdentTildeFull (t : List Char) : Bool :=
  match matchIdent t 0 with
  | none => false
  | some (e, _) =>
    if e = t.length then true
    else if charAt t e = '~' then
      match matchIdent t (e + 1) with
      | none => false
      | some (e2, _) => e2 = t.length
    else false

/-- Python `t.split('~')[-1]`: the segment after the last tilde. -/
def lastAfterTilde (t : List Char) : List Char :=
  (t.reverse.takeWhile (fun c => c ≠ '~')).reverse

/-- Python `re.sub(r'^[@]+', '', t)`. -/
def dropLeadingAts (t : List Char) : List Char := t.dropWhile (fun c => c = '@')

/-- Case-insensitive de-duplication preserving first-seen order (the
`seen`-set loops of sort.py, orderby.py and read_statement.py). -/
def dedupCI : List (List Char) → List (List Char) → List (List Char)
  | [], _ => []
  | f :: fs, seen =>
    if seen.contains (lowerL f) then dedupCI fs seen
    else f :: dedupCI fs (lowerL f :: seen)

/-- The comma-splitting character loop of sort.py's `split_fields`
(depth-tracked over parentheses, strings and templates; items flushed at
top-level commas, stripped, empties dropped). -/
def commaLoopSort (s : List Char) :
    Nat → Nat → Nat → Bool → Bool → Bool → List Char → List (List Char) → List (List Char)
  | 0, _, _, _, _, _, buf, items =>
    let last := pyStrip buf
    if last = [] then items else items ++ [last]
  | fuel + 1, i, depth, sq, bt, tpl, buf, items =>
    if i < s.length then
      let c := charAt s i
      if !sq && !bt && !tpl then
        if c = cSq then commaLoopSort s fuel (i + 1) depth true bt tpl (buf ++ [c]) items
        else if c = cBt then commaLoopSort s fuel (i + 1) depth sq true tpl (buf ++ [c]) items
        else if c = cPipe then commaLoopSort s fuel (i + 1) depth sq bt true (buf ++ [c]) items
        else if c = '(' then commaLoopSort s fuel (i + 1) (depth + 1) sq bt tpl (buf ++ [c]) items
        else if c = ')' then commaLoopSort s fuel (i + 1) (depth - 1) sq bt tpl (buf ++ [c]) items
        else if depth = 0 && c = ',' then
          let item := pyStrip buf
          commaLoopSort s fuel (i + 1) depth sq bt tpl []
            (if item = [] then items else items ++ [item])
        else commaLoopSort s fuel (i + 1) depth sq bt tpl (buf ++ [c]) items
      else if sq then
        if c = cSq then
          if i + 1 < s.length && charAt s (i + 1) = cSq then
            commaLoopSort s fuel (i + 2) depth sq bt tpl (buf ++ [c, charAt s (i + 1)]) items
          else commaLoopSort s fuel (i + 1) depth false bt tpl (buf ++ [c]) items
        else commaLoopSort s fuel (i + 1) depth sq bt tpl (buf ++ [c]) items
      else if bt then
        if c = cBt then
          if i + 1 < s.length && charAt s (i + 1) = cBt then
            commaLoopSort s fuel (i + 2) depth sq bt tpl (buf ++ [c, charAt s (i + 1)]) items
          else commaLoopSort s fuel (i + 1) depth sq false tpl (buf ++ [c]) items
        else commaLoopSort s fuel (i + 1) depth sq bt tpl (buf ++ [c]) items
      else
        if c = cPipe then
          if i + 1 < s.length && charAt s (i + 1) = cPipe then
            commaLoopSort s fuel (i + 2) depth sq bt tpl (buf ++ [c, charAt s (i + 1)]) items
          else commaLoopSort s fuel (i + 1) depth sq bt false (buf ++ [c]) items
        else commaLoopSort s fuel (i + 1) depth sq bt tpl (buf ++ [c]) items
    else
      let last := pyStrip buf
      if last = [] then items else items ++ [last]

/-- The space-token re-split of sort.py's `split_fields` (taken when the
original segment has no comma), keeping `AS alias` merged with the
preceding token. -/
def asMergeSortGo (toks : List (List Char)) : Nat → Nat → List (List Char) → List (List Char)
  | 0, _, items => items
  | fuel + 1, k, items =>
    if k < toks.length then
      let tk := toks.getD k []
      if lowerL tk = "as".toList && k + 1 < toks.length then
        if items ≠ [] then
          asMergeSortGo toks fuel (k + 2)
            (items ++ [toks.getD (k - 1) [] ++ " AS ".toList ++ toks.getD (k + 1) []])
        else asMergeSortGo toks fuel (k + 2) (items ++ ["AS ".toList ++ toks.getD (k + 1) []])
      else asMergeSortGo toks fuel (k + 1) (items ++ [tk])
    else items

/-- The per-item normalisation of sort.py's `split_fields`: unwrap trivial
parentheses, prefer the `AS` alias, strip a `a~field` qualifier and a
trailing comma, drop call/expression items (containing parentheses) and
`distinct`, strip leading `@`, and keep identifier-like tokens only. -/
def normalizeItemSort (out : List (List Char)) (it : List Char) : List (List Char) :=
  let t0 := pyStrip it
  if t0 = [] then out
  else
    let t1 :=
      if t0.headD ' ' = '(' && t0.getLast? = some ')' then
        let inner := pyStrip (t0.dropLast.drop 1)
        if inner ≠ [] then inner else t0
      else t0
    let aliasRes :=
      match searchAsCI t1 with
      | none => none
      | some (_, en) =>
        let alias0 := pyStrip (t1.drop en)
        if alias0 ≠ [] then
          let a1 := (splitWs alias0).headD []
          let a2 := pyStrip (rstripCommas a1)
          if a2 ≠ [] then some a2 else none
        else none
    match aliasRes with
    | some a => out ++ [a]
    | none =>
      let t2 := if hasChar t1 '~' then pyStrip (lastAfterTilde t1) else t1
      let t3 := if t2.getLast? = some ',' then pyStrip t2.dropLast else t2
      if hasChar t3 '(' || hasChar t3 ')' then out
      else if lowerL t3 = "distinct".toList then out
      else
        let t4 := dropLeadingAts t3
        if isIdentFull t4 then out ++ [t4] else out

/-- `split_fields` of sort.py. -/
def splitFieldsSort (seg : List Char) : List (List Char) :=
  let s0 := pyStrip seg
  if s0 = [] then []
  else
    let s1 :=
      if lowerL (s0.take 8) = "distinct".toList then pyLstrip (s0.drop 8) else s0
    if s1 = ['*'] || s1.headD ' ' = '(' then [['*']]
    else
      let items0 := commaLoopSort s1 (s1.length + 1) 0 0 false false false [] []
      let items1 :=
        if !hasChar seg ',' then asMergeSortGo (splitWs s1) (2 * (splitWs s1).length + 1) 0 []
        else items0
      let outFields := items1.foldl normalizeItemSort []
      dedupCI outFields []

/-- The character loop of orderby.py's `split_fields` (comma split at
depth 0, whitespace collapsed to single spaces inside items at depth 0). -/
def commaLoopOb (s : List Char) :
    Nat → Nat → Nat → Bool → Bool → Bool → List Char → List (List Char) → List (List Char)
  | 0, _, _, _, _, _, buf, items =>
    let last := pyStrip buf
    if last = [] then items else items ++ [last]
  | fuel + 1, i, depth, sq, bt, tpl, buf, items =>
    if i < s.length then
      let c := charAt s i
      if !sq && !bt && !tpl then
        if c = cSq then commaLoopOb s fuel (i + 1) depth true bt tpl (buf ++ [c]) items
        else if c = cBt then commaLoopOb s fuel (i + 1) depth sq true tpl (buf ++ [c]) items
        else if c = cPipe then commaLoopOb s fuel (i + 1) depth sq bt true (buf ++ [c]) items
        else if c = '(' then commaLoopOb s fuel (i + 1) (depth + 1) sq bt tpl (buf ++ [c]) items
        else if c = ')' then commaLoopOb s fuel (i + 1) (depth - 1) sq bt tpl (buf ++ [c]) items
        else if depth = 0 && c = ',' then
          let item := pyStrip buf
          commaLoopOb s fuel (i + 1) depth sq bt tpl []
            (if item = [] then items else items ++ [item])
        else if depth = 0 && pyIsSpace c then
          if buf ≠ [] && buf.getLast? ≠ some ' ' then
            commaLoopOb s fuel (i + 1) depth sq bt tpl (buf ++ [' ']) items
          else commaLoopOb s fuel (i + 1) depth sq bt tpl buf items
        else commaLoopOb s fuel (i + 1) depth sq bt tpl (buf ++ [c]) items
      else if sq then
        if c = cSq then
          if i + 1 < s.length && charAt s (i + 1) = cSq then
            commaLoopOb s fuel (i + 2) depth sq bt tpl (buf ++ [c, charAt s (i + 1)]) items
          else commaLoopOb s fuel (i + 1) depth false bt tpl (buf ++ [c]) items
        else commaLoopOb s fuel (i + 1) depth sq bt tpl (buf ++ [c]) items
      else if bt then
        if c = cBt then
          if i + 1 < s.length && charAt s (i + 1) = cBt then
            commaLoopOb s fuel (i + 2) depth sq bt tpl (buf ++ [c, charAt s (i + 1)]) items
          else commaLoopOb s fuel (i + 1) depth sq false tpl (buf ++ [c]) items
        else commaLoopOb s fuel (i + 1) depth sq bt tpl (buf ++ [c]) items
      else
        if c = cPipe then
          if i + 1 < s.length && charAt s (i + 1) = cPipe then
            commaLoopOb s fuel (i + 2) depth sq bt tpl (buf ++ [c, charAt s (i + 1)]) items
          else commaLoopOb s fuel (i + 1) depth sq bt false (buf ++ [c]) items
        else commaLoopOb s fuel (i + 1) depth sq bt tpl (buf ++ [c]) items
    else
      let last := pyStrip buf
      if last = [] then items else items ++ [last]

/-- The token-merging heuristic of orderby.py's `split_fields` (whitespace
lists): tokens are flushed one by one, `AS` takes the following token as
the item when the current buffer is non-empty, `distinct` is skipped. -/
def obTokensMergeGo (toks : List (List Char)) :
    Nat → Nat → List (List Char) → List (List Char) → List (List Char)
  | 0, _, curr, acc => if curr ≠ [] then acc ++ [joinSp curr] else acc
  | fuel + 1, k, curr, acc =>
    if k < toks.length then
      let tok := toks.getD k []
      if lowerL tok = "as".toList && curr ≠ [] then
        if k + 1 < toks.length then
          obTokensMergeGo toks fuel (k + 2) [] (acc ++ [toks.getD (k + 1) []])
        else obTokensMergeGo toks fuel (k + 1) curr acc
      else if lowerL tok = "distinct".toList then obTokensMergeGo toks fuel (k + 1) curr acc
      else
        let curr' := curr ++ [tok]
        if curr'.length ≥ 1 && k + 1 < toks.length then
          obTokensMergeGo toks fuel (k + 1) [] (acc ++ [joinSp curr'])
        else obTokensMergeGo toks fuel (k + 1) curr' acc
    else if curr ≠ [] then acc ++ [joinSp curr] else acc

/-- The comma-list alias resolution of orderby.py's `split_fields`. -/
def obCommaAlias (it : List Char) : List Char :=
  match searchAsCI it with
  | none => pyStrip it
  | some (st, en) =>
    let alias0 := pyStrip (it.drop en)
    let a1 := if alias0 ≠ [] then (splitWs alias0).headD [] else []
    if a1 ≠ [] then a1 else pyStrip (it.take st)

/-- `split_fields` of orderby.py. -/
def splitFieldsOb (seg : List Char) : List (List Char) :=
  let s0 := pyStrip seg
  if s0 = [] then []
  else if s0 = ['*'] || (lowerL s0).headD ' ' = '(' then [['*']]
  else
    let items := commaLoopOb s0 (s0.length + 1) 0 0 false false false [] []
    let finalItems :=
      items.foldl
        (fun acc it =>
          let toks := (splitSp (pyStrip it)).filter (fun t => t ≠ [])
          if toks = [] then acc
          else acc ++ obTokensMergeGo toks (2 * toks.length + 1) 0 [] [])
        []
    let finalItems2 :=
      if hasChar seg ',' then items.map obCommaAlias else finalItems
    finalItems2.foldl
      (fun acc x =>
        let x' := pyStrip x
        if x' = [] then acc
        else if lowerL x' = "distinct".toList then acc
        else acc ++ [x'])
      []

/-- `is_sort_immediately_next_for_target` of sort.py: the next executable
line after the period starts with `SORT <target>`. -/
def isSortNextFor (s : List Char) (periodPos : Nat) (target : List Char) : Bool :=
  let start := nextExecLineStart s (periodPos + 1)
  if start ≥ s.length then false
  else
    let line :=
      match findNl s start with
      | none => s.drop start
      | some e => sliceL s start e
    let line :=
      match line.findIdx? (fun c => c = cDq) with
      | none => line
      | some q => line.take q
    let line := pyStrip line
    match litCI line 0 ("sort".toList) with
    | none => false
    | some p1 =>
      match wsPlus line p1 with
      | none => false
      | some p2 =>
        match matchIdent line p2 with
        | none => false
        | some (_, idt) => lowerL idt = lowerL target

/-- `is_sort_immediately_before` of read_statement.py: the previous
executable line starts with `SORT <itab>` (field symbols `<\w+>` allowed). -/
def isSortBeforeRead (s : List Char) (readPos : Nat) (itab : List Char) : Bool :=
  match prevExecLineStart s readPos with
  | none => false
  | some ps =>
    let line :=
      match findNl s ps with
      | none => s.drop ps
      | some e => sliceL s ps e
    let line :=
      match line.findIdx? (fun c => c = cDq) with
      | none => line
      | some q => line.take q
    let line := pyStrip line
    match litCI line 0 ("sort".toList) with
    | none => false
    | some p1 =>
      match wsPlus line p1 with
      | none => false
      | some p2 =>
        let grp :=
          if charAt line p2 = '<' && p2 < line.length then
            let r := runLen line (p2 + 1) isWordChar
            if r > 0 && p2 + 1 + r < line.length && charAt line (p2 + 1 + r) = '>' then
              some (sliceL line p2 (p2 + 2 + r))
            else none
          else
            match matchIdent line p2 with
            | none => none
            | some (_, idt) => some idt
        match grp with
        | none => false
        | some g => lowerL g = lowerL itab

/-- `itab_re` of read_statement.py matched at `p`:
`\bread\s+table\s+(?P<itab><[A-Za-z_]\w*>|[A-Za-z_]\w*)\b`, returning the
match end and the captured table name.  The trailing `\b` after the
field-symbol alternative demands a word character right after `>`. -/
def itabMatchAt (s : List Char) (p : Nat) : Option (Nat × List Char) :=
  if bLeft s p then
    match litCI s p ("read".toList) with
    | none => none
    | some p1 =>
      match wsPlus s p1 with
      | none => none
      | some p2 =>
        match litCI s p2 ("table".toList) with
        | none => none
        | some p3 =>
          match wsPlus s p3 with
          | none => none
          | some p4 =>
            if p4 < s.length && charAt s p4 = '<' then
              match matchIdent s (p4 + 1) with
              | none => none
              | some (e, idt) =>
                if e < s.length && charAt s e = '>' &&
                    e + 1 < s.length && isWordChar (charAt s (e + 1)) then
                  some (e + 1, '<' :: (idt ++ ['>']))
                else none
            else
              match matchIdent s p4 with
              | none => none
              | some (e, idt) => some (e, idt)
  else none

/-- `itab_re.search`: leftmost match. -/
def searchItab (stmt : List Char) : Option (Nat × List Char) :=
  firstSome (itabMatchAt stmt) (List.range stmt.length)

/-- `extract_itab` of read_statement.py. -/
def extractItab (stmt : List Char) : Option (List Char) :=
  (searchItab stmt).map (fun r => r.2)

/-- `read_has_index`: `re.search(r'(?is)\bindex\b', stmt)`. -/
def readHasIndex (stmt : List Char) : Bool :=
  (List.range stmt.length).any (fun p => matchKwAt stmt p ("index".toList))

/-- Matcher for `\bwith\s+table\s+key\b` at `p`: end of match. -/
def mWtkAt (s : List Char) (p : Nat) : Option Nat :=
  if bLeft s p then
    match litCI s p ("with".toList) with
    | none => none
    | some p1 =>
      match wsPlus s p1 with
      | none => none
      | some p2 =>
        match litCI s p2 ("table".toList) with
        | none => none
        | some p3 =>
          match wsPlus s p3 with
          | none => none
          | some p4 =>
            match litCI s p4 ("key".toList) with
            | none => none
            | some p5 => if bRight s p5 then some p5 else none
  else none

/-- Matcher for `\bwith\s+key\b` at `p`: end of match. -/
def mWkAt (s : List Char) (p : Nat) : Option Nat :=
  if bLeft s p then
    match litCI s p ("with".toList) with
    | none => none
    | some p1 =>
      match wsPlus s p1 with
      | none => none
      | some p2 =>
        match litCI s p2 ("key".toList) with
        | none => none
        | some p3 => if bRight s p3 then some p3 else none
  else none

/-- Matcher for `\btable\s+key\b` at `p`: end of match. -/
def mTkAt (s : List Char) (p : Nat) : Option Nat :=
  if bLeft s p then
    match litCI s p ("table".toList) with
    | none => none
    | some p1 =>
      match wsPlus s p1 with
      | none => none
      | some p2 =>
        match litCI s p2 ("key".toList) with
        | none => none
        | some p3 => if bRight s p3 then some p3 else none
  else none

/-- Matcher for `\bkey\b` at `p`: end of match. -/
def mKeyAt (s : List Char) (p : Nat) : Option Nat :=
  if matchKwAt s p ("key".toList) then some (p + 3) else none

/-- `read_has_key`: `re.search` of the alternation
`\b(?:with\s+table\s+key|with\s+key|table\s+key|key)\b`. -/
def readHasKey (stmt : List Char) : Bool :=
  (List.range stmt.length).any (fun p =>
    (mWtkAt stmt p).isSome || (mWkAt stmt p).isSome ||
      (mTkAt stmt p).isSome || (mKeyAt stmt p).isSome)

/-- Leftmost match end for one of the key-phrase matchers. -/
def searchEnd (m : List Char → Nat → Option Nat) (s : List Char) : Option Nat :=
  firstSome (m s) (List.range s.length)

/-- The `m_key` search cascade of `extract_key_fields`: a whole-string
search for `with table key`, else `with key`, else `table key`, else
`key`; returns the end offset of the winning leftmost match. -/
def keyPhraseEnd (sub : List Char) : Option Nat :=
  match searchEnd mWtkAt sub with
  | some e => some e
  | none =>
    match searchEnd mWkAt sub with
    | some e => some e
    | none =>
      match searchEnd mTkAt sub with
      | some e => some e
      | none => searchEnd mKeyAt sub

/-- Leftmost `\bcomponents\b` match end. -/
def compEnd (sub : List Char) : Option Nat :=
  firstSome
    (fun p => if matchKwAt sub p ("components".toList) then some (p + 10) else none)
    (List.range sub.length)

/-- `re.findall(r'(?is)\b([A-Za-z_]\w*)\s*=', sec)`: all identifiers
immediately (over `\s*`) before an `=`, leftmost non-overlapping. -/
def findallIdentEqF (sec : List Char) : Nat → Nat → List (List Char) → List (List Char)
  | 0, _, acc => acc
  | fuel + 1, p, acc =>
    if p < sec.length then
      if bLeft sec p then
        match matchIdent sec p with
        | some (e, idt) =>
          let q := wsStar sec e
          if q < sec.length && charAt sec q = '=' then
            findallIdentEqF sec fuel (q + 1) (acc ++ [idt])
          else findallIdentEqF sec fuel (p + 1) acc
        | none => findallIdentEqF sec fuel (p + 1) acc
      else findallIdentEqF sec fuel (p + 1) acc
    else acc

/-- The `findall` with its always-sufficient fuel. -/
def findallIdentEq (sec : List Char) : List (List Char) :=
  findallIdentEqF sec (sec.length + 1) 0 []

/-- The filtering de-duplication at the end of `extract_key_fields`. -/
def keyFilterDedup : List (List Char) → List (List Char) → List (List Char)
  | [], _ => []
  | f :: fs, seen =>
    let fl := lowerL f
    if fl = "with".toList || fl = "table".toList || fl = "key".toList ||
        fl = "components".toList then keyFilterDedup fs seen
    else if seen.contains fl then keyFilterDedup fs seen
    else f :: keyFilterDedup fs (fl :: seen)

/-- `extract_key_fields` of read_statement.py. -/
def extractKeyFields (stmt : List Char) : List (List Char) :=
  let searchFrom := match searchItab stmt with | none => 0 | some r => r.1
  let sub := stmt.drop searchFrom
  match keyPhraseEnd sub with
  | none => []
  | some mEnd =>
    let keyStart := searchFrom + mEnd
    let sub2 := stmt.drop keyStart
    let keyStart2 := match compEnd sub2 with | none => keyStart | some ce => keyStart + ce
    keyFilterDedup (findallIdentEq (stmt.drop keyStart2)) []

/-- The PwC provenance tag line
`f'" Added By Pwc {date.today().isoformat()}\n'` for a given date text. -/
def pwcTag (today : List Char) : List Char :=
  cDq :: (" Added By Pwc ".toList ++ today ++ ['\n'])

/-- The `terminators` keyword list of select.py's INTO-clause search. -/
def selTerminators : List (List Char) :=
  ["from".toList, "where".toList, "order".toList, "group".toList, "having".toList,
   "bypassing".toList, "client".toList, "using".toList, "for".toList,
   "appending".toList, "union".toList, "intersect".toList, "except".toList,
   "package".toList, "up".toList]

/-- `WHERE_TERMINATORS` of orderby.py. -/
def obTerminators : List (List Char) :=
  ["group".toList, "having".toList, "order".toList, "into".toList, "appending".toList,
   "up".toList, "for".toList, "bypassing".toList, "union".toList, "intersect".toList,
   "except".toList, "client".toList, "using".toList, "package".toList]

/-- One iteration of `process_select`'s main loop (select.py): either the
final output (`inl`, loop ends) or the next cursor and accumulated output
(`inr`). -/
def selStep (today s : List Char) (i : Nat) (out : List Char) :
    (List Char) ⊕ (Nat × List Char) :=
  match scanSel s i with
  | none => .inl (out ++ s.drop i)
  | some selStart =>
    let out1 := out ++ sliceL s i selStart
    match findPeriod s selStart with
    | none => .inl (out1 ++ s.drop selStart)
    | some per =>
      let stmt := sliceL s selStart per
      let indent := indentAt s selStart
      let cleaned := removeUpToRows (removeSingle stmt)
      let newStmt :=
        match findKwSel cleaned ("where".toList) 0 with
        | some w =>
          pyRstrip (cleaned.take w) ++ " UP TO 1 ROWS ".toList ++ pyLstrip (cleaned.drop w)
        | none =>
          match findKwSel cleaned ("into".toList) 0 with
          | some into =>
            let ss := into + 4 + runLen cleaned (into + 4) pyIsSpace
            match findNextAnyKwSel cleaned selTerminators ss with
            | none => pyRstrip cleaned ++ " UP TO 1 ROWS".toList
            | some nxt =>
              pyRstrip (cleaned.take nxt) ++ " UP TO 1 ROWS ".toList ++
                pyLstrip (cleaned.drop nxt)
          | none => pyRstrip cleaned ++ " UP TO 1 ROWS".toList
      let newStmt2 := pyStrip (normalizeSpaces newStmt)
      let addEnd := !hasEndselectAfter s per
      let repl :=
        (indent ++ pwcTag today) ++ (newStmt2 ++ ['.']) ++
          (if addEnd then '\n' :: (indent ++ "ENDSELECT.".toList) else [])
      let trailing :=
        if addEnd then [] else sliceL s (per + 1) (skipWsAndComments s (per + 1))
      .inr (per + 1, out1 ++ repl ++ trailing)

/-- The main loop of `process_select` (one fuel unit per iteration). -/
def selLoop (today s : List Char) : Nat → Nat → List Char → List Char
  | 0, i, out => out ++ s.drop i
  | fuel + 1, i, out =>
    if i < s.length then
      match selStep today s i out with
      | .inl r => r
      | .inr (i', out') => selLoop today s fuel i' out'
    else out ++ s.drop i

/-- `process_select` of select.py, with the pass date injected. -/
def processSelect (today code : List Char) : List Char :=
  selLoop today code (code.length + 1) 0 []

/-- One iteration of `process_sort`'s main loop (sort.py). -/
def sortStep (today s : List Char) (i : Nat) (out : List Char) :
    (List Char) ⊕ (Nat × List Char) :=
  match scanStmtSel s i with
  | none => .inl (out ++ s.drop i)
  | some selPos =>
    let out1 := out ++ sliceL s i selPos
    match findPeriod s selPos with
    | none => .inl (out1 ++ s.drop selPos)
    | some per =>
      let stmt := sliceL s selPos per
      if !hasFaeRaw stmt then .inr (per + 1, out1 ++ sliceL s selPos (per + 1))
      else
        match extractTargetTable stmt with
        | none => .inr (per + 1, out1 ++ sliceL s selPos (per + 1))
        | some target =>
          if isSortNextFor s per target then
            .inr (per + 1, out1 ++ sliceL s selPos (per + 1))
          else
            let fields := splitFieldsSort (extractSelectList stmt)
            let indent := indentAt s selPos
            let sortStmt :=
              if fields = [] || fields = [['*']] || fields.any (fun f => pyStrip f = ['*']) then
                indent ++ "SORT ".toList ++ target ++ ['.']
              else
                indent ++ "SORT ".toList ++ target ++ " BY ".toList ++ joinSp fields ++ ['.']
            let insertion := '\n' :: (sortStmt ++ '\n' :: (indent ++ pwcTag today))
            .inr (per + 1, out1 ++ sliceL s selPos (per + 1) ++ insertion)

/-- The main loop of `process_sort`. -/
def sortLoop (today s : List Char) : Nat → Nat → List Char → List Char
  | 0, i, out => out ++ s.drop i
  | fuel + 1, i, out =>
    if i < s.length then
      match sortStep today s i out with
      | .inl r => r
      | .inr (i', out') => sortLoop today s fuel i' out'
    else out ++ s.drop i

/-- `process_sort` of sort.py, with the pass date injected. -/
def processSort (today code : List Char) : List Char :=
  sortLoop today code (code.length + 1) 0 []

/-- The cleaning step applied to each field by `process_orderby`'s
main loop (trailing comma, residual `AS`, trivial parentheses). -/
def obCleanItem (acc : List (List Char)) (f : List Char) : List (List Char) :=
  let t0 := pyStrip f
  if t0 = [] then acc
  else
    let t1 := if t0.getLast? = some ',' then pyStrip t0.dropLast else t0
    let t2 :=
      match searchAsCI t1 with
      | none => t1
      | some (st, en) =>
        let alias0 := pyStrip (t1.drop en)
        let a1 := if alias0 ≠ [] then (splitWs alias0).headD [] else []
        if a1 ≠ [] then a1 else pyStrip (t1.take st)
    let t3 :=
      if t2.headD ' ' = '(' && t2.getLast? = some ')' then
        let inner := pyStrip (t2.dropLast.drop 1)
        if isIdentTildeFull inner then inner else t2
      else t2
    acc ++ [t3]

/-- One iteration of `process_orderby`'s main loop (orderby.py). -/
def obStep (today s : List Char) (i : Nat) (out : List Char) :
    (List Char) ⊕ (Nat × List Char) :=
  match scanStmtSel s i with
  | none => .inl (out ++ s.drop i)
  | some selPos =>
    let out1 := out ++ sliceL s i selPos
    match findPeriod s selPos with
    | none => .inl (out1 ++ s.drop selPos)
    | some per =>
      let stmt := sliceL s selPos per
      if hasFaeOb stmt || hasOrderByOb stmt then
        .inr (per + 1, out1 ++ sliceL s selPos (per + 1))
      else
        let indent := indentAt s selPos
        let fields := splitFieldsOb (extractSelectList stmt)
        let usePK := fields = [] || fields = [['*']] || fields.any (fun f => pyStrip f = ['*'])
        let obClause :=
          if usePK then " ORDER BY PRIMARY KEY".toList
          else
            let cleaned := fields.foldl obCleanItem []
            let ordered := dedupCI cleaned []
            " ORDER BY ".toList ++
              joinCommaSp (if ordered = [] then ["PRIMARY KEY".toList] else ordered)
        let insertPos :=
          match findKw stmt ("where".toList) 0 with
          | some w =>
            match findNextAnyKw stmt obTerminators (w + 5) with
            | some e => e
            | none => stmt.length
          | none => stmt.length
        let left := pyRstrip (stmt.take insertPos)
        let right := pyLstrip (stmt.drop insertPos)
        let newStmt0 := left ++ obClause
        let newStmt1 := if right ≠ [] then newStmt0 ++ ' ' :: right else newStmt0
        let newStmt := pyStrip (normalizeSpaces newStmt1)
        .inr (per + 1, out1 ++ (indent ++ pwcTag today) ++ newStmt ++ ['.'])

/-- The main loop of `process_orderby`. -/
def obLoop (today s : List Char) : Nat → Nat → List Char → List Char
  | 0, i, out => out ++ s.drop i
  | fuel + 1, i, out =>
    if i < s.length then
      match obStep today s i out with
      | .inl r => r
      | .inr (i', out') => obLoop today s fuel i' out'
    else out ++ s.drop i

/-- `process_orderby` of orderby.py, with the pass date injected. -/
def processOrderby (today code : List Char) : List Char :=
  obLoop today code (code.length + 1) 0 []

/-- One iteration of `process_read`'s main loop (read_statement.py). -/
def readStep (today s : List Char) (i : Nat) (out : List Char) :
    (List Char) ⊕ (Nat × List Char) :=
  match scanRead s i with
  | none => .inl (out ++ s.drop i)
  | some rp =>
    let out1 := out ++ sliceL s i rp
    match findPeriod s rp with
    | none => .inl (out1 ++ s.drop rp)
    | some per =>
      let stmt := sliceL s rp per
      match extractItab stmt with
      | none => .inr (per + 1, out1 ++ sliceL s rp (per + 1))
      | some itab =>
        let hasIdx := readHasIndex stmt
        let hasKey := readHasKey stmt
        if !(hasIdx || hasKey) then .inr (per + 1, out1 ++ sliceL s rp (per + 1))
        else if isSortBeforeRead s rp itab then
          .inr (per + 1, out1 ++ sliceL s rp (per + 1))
        else
          let indent := indentAt s rp
          let sortStmt :=
            if hasIdx then indent ++ "SORT ".toList ++ itab ++ ['.']
            else
              let fields := extractKeyFields stmt
              if fields ≠ [] then
                indent ++ "SORT ".toList ++ itab ++ " BY ".toList ++
                  joinSp (dedupCI fields []) ++ ['.']
              else indent ++ "SORT ".toList ++ itab ++ ['.']
          let insertion := sortStmt ++ '\n' :: (indent ++ pwcTag today)
          .inr (per + 1, out1 ++ insertion ++ sliceL s rp (per + 1))

/-- The main loop of `process_read`. -/
def readLoop (today s : List Char) : Nat → Nat → List Char → List Char
  | 0, i, out => out ++ s.drop i
  | fuel + 1, i, out =>
    if i < s.length then
      match readStep today s i out with
      | .inl r => r
      | .inr (i', out') => readLoop today s fuel i' out'
    else out ++ s.drop i

/-- `process_read` of read_statement.py, with the pass date injected. -/
def processRead (today code : List Char) : List Char :=
  readLoop today code (code.length + 1) 0 []

/-- `process_abap_code` of app.py: the four passes in fixed order
(select → sort → orderby → read), each consuming the prior's output, with
the (injected) pass date fixed across the pipeline. -/
def remediate (today code : List Char) : List Char :=
  processRead today (processOrderby today (processSort today (processSelect today code)))

/-- The fixed date used to evaluate the pipeline in the concrete theorems. -/
def testDate : List Char := "2024-06-01".toList

/-- `pat` occurs as a contiguous substring of `s`. -/
def hasSeg (pat s : List Char) : Bool :=
  (List.range (s.length + 1)).any (fun i => (s.drop i).take pat.length = pat)

/-!  ## Scanner monotonicity (cursor never moves backwards) -/

theorem findNl_ge (s : List Char) (i e : Nat) (h : findNl s i = some e) : i ≤ e := by
  unfold findNl at h
  cases h2 : (s.drop i).findIdx? (fun c => c = '\n') with
  | none => rw [h2] at h; exact Option.noConfusion h
  | some k => rw [h2] at h; injection h with h'; omega

theorem skipToEol_ge (s : List Char) (i : Nat) (hi : i < s.length) :
    i ≤ skipToEol s i := by
  unfold skipToEol
  cases h2 : findNl s i with
  | none => exact Nat.le_of_lt hi
  | some e => exact findNl_ge s i e h2

theorem findPeriodF_mono (s : List Char) :
    ∀ fuel i sq bt tpl p, findPeriodF s fuel i sq bt tpl = some p → i ≤ p := by
  intro fuel
  induction fuel with
  | zero => intro i sq bt tpl p h; exact Option.noConfusion h
  | succ m ih =>
    intro i sq bt tpl p h
    rw [findPeriodF] at h
    by_cases hi : i < s.length
    · have hskip : i ≤ skipToEol s i := skipToEol_ge s i hi
      rw [if_pos hi] at h
      dsimp only at h
      generalize hE : skipToEol s i = E at h hskip
      repeat' split at h
      all_goals
        first
          | exact Option.noConfusion h
          | (injection h with h'; omega)
          | (have hx := ih _ _ _ _ _ h; omega)
    · rw [if_neg hi] at h; exact Option.noConfusion h

theorem findPeriod_mono (s : List Char) (start p : Nat) (h : findPeriod s start = some p) :
    start ≤ p :=
  findPeriodF_mono s _ start false false false p h

theorem scanSelF_mono (s : List Char) :
    ∀ fuel i sq bt tpl p, scanSelF s fuel i sq bt tpl = some p → i ≤ p := by
  intro fuel
  induction fuel with
  | zero => intro i sq bt tpl p h; exact Option.noConfusion h
  | succ m ih =>
    intro i sq bt tpl p h
    rw [scanSelF] at h
    by_cases hi : i < s.length
    · rw [if_pos hi] at h
      dsimp only at h
      cases hfn : findNl s i with
      | none =>
        rw [hfn] at h
        dsimp only at h
        repeat' split at h
        all_goals
          first
            | exact Option.noConfusion h
            | (injection h with h'; omega)
            | (have hx := ih _ _ _ _ _ h; omega)
      | some e =>
        have he : i ≤ e := findNl_ge s i e hfn
        rw [hfn] at h
        dsimp only at h
        repeat' split at h
        all_goals
          first
            | exact Option.noConfusion h
            | (injection h with h'; omega)
            | (have hx := ih _ _ _ _ _ h; omega)
    · rw [if_neg hi] at h; exact Option.noConfusion h

theorem scanSel_mono (s : List Char) (i p : Nat) (h : scanSel s i = some p) : i ≤ p :=
  scanSelF_mono s _ i false false false p h

theorem scanStmtSelF_mono (s : List Char) :
    ∀ fuel i sq bt tpl p, scanStmtSelF s fuel i sq bt tpl = some p → i ≤ p := by
  intro fuel
  induction fuel with
  | zero => intro i sq bt tpl p h; exact Option.noConfusion h
  | succ m ih =>
    intro i sq bt tpl p h
    rw [scanStmtSelF] at h
    by_cases hi : i < s.length
    · have hskip : i ≤ skipToEol s i := skipToEol_ge s i hi
      rw [if_pos hi] at h
      dsimp only at h
      generalize hE : skipToEol s i = E at h hskip
      repeat' split at h
      all_goals
        first
          | exact Option.noConfusion h
          | (injection h with h'; omega)
          | (have hx := ih _ _ _ _ _ h; omega)
    · rw [if_neg hi] at h; exact Option.noConfusion h

theorem scanStmtSel_mono (s : List Char) (i p : Nat) (h : scanStmtSel s i = some p) : i ≤ p :=
  scanStmtSelF_mono s _ i false false false p h

theorem scanReadF_mono (s : List Char) :
    ∀ fuel i sq bt tpl p, scanReadF s fuel i sq bt tpl = some p → i ≤ p := by
  intro fuel
  induction fuel with
  | zero => intro i sq bt tpl p h; exact Option.noConfusion h
  | succ m ih =>
    intro i sq bt tpl p h
    rw [scanReadF] at h
    by_cases hi : i < s.length
    · have hskip : i ≤ skipToEol s i := skipToEol_ge s i hi
      rw [if_pos hi] at h
      dsimp only at h
      generalize hE : skipToEol s i = E at h hskip
      repeat' split at h
      all_goals
        first
          | exact Option.noConfusion h
          | (injection h with h'; omega)
          | (have hx := ih _ _ _ _ _ h; omega)
    · rw [if_neg hi] at h; exact Option.noConfusion h

theorem scanRead_mono (s : List Char) (i p : Nat) (h : scanRead s i = some p) : i ≤ p :=
  scanReadF_mono s _ i false false false p h

/-!  ## Main-loop progress: every iteration strictly advances the cursor -/

theorem selStep_progress (today s : List Char) (i : Nat) (out : List Char) :
    ∀ i' out', selStep today s i out = .inr (i', out') → i < i' := by
  intro i' out' h
  unfold selStep at h
  cases hscan : scanSel s i with
  | none => rw [hscan] at h; exact Sum.noConfusion h
  | some selStart =>
    have h1 : i ≤ selStart := scanSel_mono s i selStart hscan
    rw [hscan] at h
    dsimp only at h
    cases hper : findPeriod s selStart with
    | none => rw [hper] at h; exact Sum.noConfusion h
    | some per =>
      have h2 : selStart ≤ per := findPeriod_mono s selStart per hper
      rw [hper] at h
      dsimp only at h
      repeat' split at h
      all_goals
        first
          | exact Sum.noConfusion h
          | (injection h with h'; injection h' with ha hb; omega)

theorem sortStep_progress (today s : List Char) (i : Nat) (out : List Char) :
    ∀ i' out', sortStep today s i out = .inr (i', out') → i < i' := by
  intro i' out' h
  unfold sortStep at h
  cases hscan : scanStmtSel s i with
  | none => rw [hscan] at h; exact Sum.noConfusion h
  | some selPos =>
    have h1 : i ≤ selPos := scanStmtSel_mono s i selPos hscan
    rw [hscan] at h
    dsimp only at h
    cases hper : findPeriod s selPos with
    | none => rw [hper] at h; exact Sum.noConfusion h
    | some per =>
      have h2 : selPos ≤ per := findPeriod_mono s selPos per hper
      rw [hper] at h
      dsimp only at h
      repeat' split at h
      all_goals
        first
          | exact Sum.noConfusion h
          | (injection h with h'; injection h' with ha hb; omega)

theorem obStep_progress (today s : List Char) (i : Nat) (out : List Char) :
    ∀ i' out', obStep today s i out = .inr (i', out') → i < i' := by
  intro i' out' h
  unfold obStep at h
  cases hscan : scanStmtSel s i with
  | none => rw [hscan] at h; exact Sum.noConfusion h
  | some selPos =>
    have h1 : i ≤ selPos := scanStmtSel_mono s i selPos hscan
    rw [hscan] at h
    dsimp only at h
    cases hper : findPeriod s selPos with
    | none => rw [hper] at h; exact Sum.noConfusion h
    | some per =>
      have h2 : selPos ≤ per := findPeriod_mono s selPos per hper
      rw [hper] at h
      dsimp only at h
      repeat' split at h
      all_goals
        first
          | exact Sum.noConfusion h
          | (injection h with h'; injection h' with ha hb; omega)

theorem readStep_progress (today s : List Char) (i : Nat) (out : List Char) :
    ∀ i' out', readStep today s i out = .inr (i', out') → i < i' := by
  intro i' out' h
  unfold readStep at h
  cases hscan : scanRead s i with
  | none => rw [hscan] at h; exact Sum.noConfusion h
  | some rp =>
    have h1 : i ≤ rp := scanRead_mono s i rp hscan
    rw [hscan] at h
    dsimp only at h
    cases hper : findPeriod s rp with
    | none => rw [hper] at h; exact Sum.noConfusion h
    | some per =>
      have h2 : rp ≤ per := findPeriod_mono s rp per hper
      rw [hper] at h
      dsimp only at h
      repeat' split at h
      all_goals
        first
          | exact Sum.noConfusion h
          | (injection h with h'; injection h' with ha hb; omega)

/-!  ## Fuel stabilisation of the four main loops -/

theorem selLoop_stab (today s : List Char) :
    ∀ f₁ f₂ i out, s.length < f₁ + i → s.length < f₂ + i →
      selLoop today s f₁ i out = selLoop today s f₂ i out := by
  intro f₁
  induction f₁ with
  | zero =>
    intro f₂ i out h1 h2
    cases f₂ with
    | zero => rfl
    | succ m' => simp only [selLoop]; rw [if_neg (by omega)]
  | succ m ih =>
    intro f₂ i out h1 h2
    cases f₂ with
    | zero => simp only [selLoop]; rw [if_neg (by omega)]
    | succ m' =>
      simp only [selLoop]
      by_cases hi : i < s.length
      · rw [if_pos hi, if_pos hi]
        cases hstep : selStep today s i out with
        | inl r => rfl
        | inr v =>
          obtain ⟨i', out'⟩ := v
          have hp : i < i' := selStep_progress today s i out i' out' hstep
          exact ih m' i' out' (by omega) (by omega)
      · rw [if_neg hi, if_neg hi]

theorem sortLoop_stab (today s : List Char) :
    ∀ f₁ f₂ i out, s.length < f₁ + i → s.length < f₂ + i →
      sortLoop today s f₁ i out = sortLoop today s f₂ i out := by
  intro f₁
  induction f₁ with
  | zero =>
    intro f₂ i out h1 h2
    cases f₂ with
    | zero => rfl
    | succ m' => simp only [sortLoop]; rw [if_neg (by omega)]
  | succ m ih =>
    intro f₂ i out h1 h2
    cases f₂ with
    | zero => simp only [sortLoop]; rw [if_neg (by omega)]
    | succ m' =>
      simp only [sortLoop]
      by_cases hi : i < s.length
      · rw [if_pos hi, if_pos hi]
        cases hstep : sortStep today s i out with
        | inl r => rfl
        | inr v =>
          obtain ⟨i', out'⟩ := v
          have hp : i < i' := sortStep_progress today s i out i' out' hstep
          exact ih m' i' out' (by omega) (by omega)
      · rw [if_neg hi, if_neg hi]

theorem obLoop_stab (today s : List Char) :
    ∀ f₁ f₂ i out, s.length < f₁ + i → s.length < f₂ + i →
      obLoop today s f₁ i out = obLoop today s f₂ i out := by
  intro f₁
  induction f₁ with
  | zero =>
    intro f₂ i out h1 h2
    cases f₂ with
    | zero => rfl
    | succ m' => simp only [obLoop]; rw [if_neg (by omega)]
  | succ m ih =>
    intro f₂ i out h1 h2
    cases f₂ with
    | zero => simp only [obLoop]; rw [if_neg (by omega)]
    | succ m' =>
      simp only [obLoop]
      by_cases hi : i < s.length
      · rw [if_pos hi, if_pos hi]
        cases hstep : obStep today s i out with
        | inl r => rfl
        | inr v =>
          obtain ⟨i', out'⟩ := v
          have hp : i < i' := obStep_progress today s i out i' out' hstep
          exact ih m' i' out' (by omega) (by omega)
      · rw [if_neg hi, if_neg hi]

theorem readLoop_stab (today s : List Char) :
    ∀ f₁ f₂ i out, s.length < f₁ + i → s.length < f₂ + i →
      readLoop today s f₁ i out = readLoop today s f₂ i out := by
  intro f₁
  induction f₁ with
  | zero =>
    intro f₂ i out h1 h2
    cases f₂ with
    | zero => rfl
    | succ m' => simp only [readLoop]; rw [if_neg (by omega)]
  | succ m ih =>
    intro f₂ i out h1 h2
    cases f₂ with
    | zero => simp only [readLoop]; rw [if_neg (by omega)]
    | succ m' =>
      simp only [readLoop]
      by_cases hi : i < s.length
      · rw [if_pos hi, if_pos hi]
        cases hstep : readStep today s i out with
        | inl r => rfl
        | inr v =>
          obtain ⟨i', out'⟩ := v
          have hp : i < i' := readStep_progress today s i out i' out' hstep
          exact ih m' i' out' (by omega) (by omega)
      · rw [if_neg hi, if_neg hi]

/-!  ## Slices and the insertion-only property of sort / read passes -/

theorem slice_take_append (s : List Char) (i j : Nat) (hij : i ≤ j) :
    s.take i ++ sliceL s i j = s.take j := by
  unfold sliceL
  conv_rhs => rw [show j = i + (j - i) by omega, List.take_add]

theorem take_sub_append_drop (s : List Char) (i : Nat) (out : List Char)
    (hinv : s.take i <+ out) : s <+ out ++ s.drop i := by
  conv_lhs => rw [← List.take_append_drop i s]
  exact hinv.append (List.Sublist.refl _)

theorem take_sub_slice (s : List Char) (i j : Nat) (out : List Char)
    (hij : i ≤ j) (hinv : s.take i <+ out) :
    s.take j <+ out ++ sliceL s i j := by
  rw [← slice_take_append s i j hij]
  exact hinv.append (List.Sublist.refl _)

/-- The sort step preserves the invariant "the first `i` characters of the
input occur, in order, in the accumulated output": on loop exit the whole
input is a subsequence of the result, and on continuation the invariant
holds at the advanced cursor. -/
theorem sortStep_sub (today s : List Char) (i : Nat) (out : List Char)
    (hinv : s.take i <+ out) :
    (match sortStep today s i out with
     | .inl r => s <+ r
     | .inr (i', out') => s.take i' <+ out') := by
  unfold sortStep
  cases hscan : scanStmtSel s i with
  | none => exact take_sub_append_drop s i out hinv
  | some selPos =>
    have h1 : i ≤ selPos := scanStmtSel_mono s i selPos hscan
    have hinv1 : s.take selPos <+ out ++ sliceL s i selPos :=
      take_sub_slice s i selPos out h1 hinv
    dsimp only
    cases hper : findPeriod s selPos with
    | none =>
      dsimp only
      exact take_sub_append_drop s selPos (out ++ sliceL s i selPos) hinv1
    | some per =>
      have h2 : selPos ≤ per := findPeriod_mono s selPos per hper
      have hinv2 : s.take (per + 1) <+
          (out ++ sliceL s i selPos) ++ sliceL s selPos (per + 1) :=
        take_sub_slice s selPos (per + 1) _ (by omega) hinv1
      dsimp only
      split
      · rename_i r heq
        repeat' split at heq
        all_goals exact Sum.noConfusion heq
      · rename_i v i' out' heq
        repeat' split at heq
        all_goals
          (injection heq with h'; injection h' with ha hb; rw [← ha, ← hb];
            first
              | exact hinv2
              | exact hinv2.trans (List.sublist_append_left _ _))

/-- The read step preserves the same invariant; its insertion precedes the
copied statement, so the copied slice is a subsequence of
`insertion ++ slice`. -/
theorem readStep_sub (today s : List Char) (i : Nat) (out : List Char)
    (hinv : s.take i <+ out) :
    (match readStep today s i out with
     | .inl r => s <+ r
     | .inr (i', out') => s.take i' <+ out') := by
  unfold readStep
  cases hscan : scanRead s i with
  | none => exact take_sub_append_drop s i out hinv
  | some rp =>
    have h1 : i ≤ rp := scanRead_mono s i rp hscan
    have hinv1 : s.take rp <+ out ++ sliceL s i rp :=
      take_sub_slice s i rp out h1 hinv
    dsimp only
    cases hper : findPeriod s rp with
    | none =>
      dsimp only
      exact take_sub_append_drop s rp (out ++ sliceL s i rp) hinv1
    | some per =>
      have h2 : rp ≤ per := findPeriod_mono s rp per hper
      have hinv2 : s.take (per + 1) <+
          (out ++ sliceL s i rp) ++ sliceL s rp (per + 1) :=
        take_sub_slice s rp (per + 1) _ (by omega) hinv1
      have hinv3 : ∀ ins : List Char, s.take (per + 1) <+
          ((out ++ sliceL s i rp) ++ ins) ++ sliceL s rp (per + 1) := by
        intro ins
        rw [← slice_take_append s rp (per + 1) (by omega),
          ← slice_take_append s i rp h1]
        exact ((hinv.append (List.Sublist.refl _)).trans
          (List.sublist_append_left _ ins)).append (List.Sublist.refl _)
      dsimp only
      split
      · rename_i r heq
        repeat' split at heq
        all_goals exact Sum.noConfusion heq
      · rename_i v i' out' heq
        repeat' split at heq
        all_goals
          (injection heq with h'; injection h' with ha hb; rw [← ha, ← hb];
            first
              | exact hinv2
              | exact hinv3 _)

theorem sortLoop_sub (today s : List Char) :
    ∀ fuel i out, s.take i <+ out → s <+ sortLoop today s fuel i out := by
  intro fuel
  induction fuel with
  | zero => intro i out hinv; exact take_sub_append_drop s i out hinv
  | succ m ih =>
    intro i out hinv
    rw [sortLoop]
    by_cases hi : i < s.length
    · rw [if_pos hi]
      have hs := sortStep_sub today s i out hinv
      cases hstep : sortStep today s i out with
      | inl r => rw [hstep] at hs; exact hs
      | inr v =>
        obtain ⟨i', out'⟩ := v
        rw [hstep] at hs
        exact ih i' out' hs
    · rw [if_neg hi]; exact take_sub_append_drop s i out hinv

theorem readLoop_sub (today s : List Char) :
    ∀ fuel i out, s.take i <+ out → s <+ readLoop today s fuel i out := by
  intro fuel
  induction fuel with
  | zero => intro i out hinv; exact take_sub_append_drop s i out hinv
  | succ m ih =>
    intro i out hinv
    rw [readLoop]
    by_cases hi : i < s.length
    · rw [if_pos hi]
      have hs := readStep_sub today s i out hinv
      cases hstep : readStep today s i out with
      | inl r => rw [hstep] at hs; exact hs
      | inr v =>
        obtain ⟨i', out'⟩ := v
        rw [hstep] at hs
        exact ih i' out' hs
    · rw [if_neg hi]; exact take_sub_append_drop s i out hinv

/-!  ## Claim theorems -/

/-- Claim C1 (code bug, evaluated): the four-pass pipeline `remediate` at a
fixed date is NOT idempotent.  On `a. READ TABLE t WITH KEY k = 1.` (a keyed
READ sharing its line with a preceding statement) the first run inserts
`SORT t BY k.` plus a tag before the READ; on the second run
`is_sort_immediately_before` inspects the previous executable line, which
now starts with `a. SORT t BY k.` rather than with `SORT`, so the pass
inserts a duplicate SORT, contradicting both the spec's idempotence
property and read_statement.py's own "no preceding SORT" docstring. -/
theorem c1_remediate_not_idempotent :
    remediate testDate "a. READ TABLE t WITH KEY k = 1.".toList =
      "a. SORT t BY k.\n\" Added By Pwc 2024-06-01\nREAD TABLE t WITH KEY k = 1.".toList ∧
    remediate testDate (remediate testDate "a. READ TABLE t WITH KEY k = 1.".toList) =
      ("a. SORT t BY k.\n\" Added By Pwc 2024-06-01\nSORT t BY k.\n" ++
        "\" Added By Pwc 2024-06-01\nREAD TABLE t WITH KEY k = 1.").toList ∧
    remediate testDate (remediate testDate "a. READ TABLE t WITH KEY k = 1.".toList) ≠
      remediate testDate "a. READ TABLE t WITH KEY k = 1.".toList :=
  ⟨by rfl, by rfl, by decide⟩

/-- Claim C2 (code bug, evaluated): a keyword occurrence inside a string
region CAN trigger a rewrite.  `process_sort`'s trigger predicate
`has_for_all_entries` is a bare regex over the raw statement text, so a
SELECT whose only `for all entries` lies inside a backtick string literal
is treated as a FOR-ALL-ENTRIES query and a `SORT itab BY a.` line plus tag
is inserted — contradicting the claim and sort.py's own docstring
("ignore commented or string-literal content"). -/
theorem c2_quoted_keyword_triggers_rewrite :
    processSort testDate "SELECT a FROM t INTO itab WHERE x = `for all entries`.".toList =
      ("SELECT a FROM t INTO itab WHERE x = `for all entries`.\n" ++
        "SORT itab BY a.\n\" Added By Pwc 2024-06-01\n").toList ∧
    processSort testDate "SELECT a FROM t INTO itab WHERE x = `for all entries`.".toList ≠
      "SELECT a FROM t INTO itab WHERE x = `for all entries`.".toList :=
  ⟨by rfl, by decide⟩

/-- Claim C3: every pass is a total function of the input (by construction
of the embedding — no partial operation is used, mirroring the sources,
which guard every index and subscript); the empty input is returned
unchanged by each pass and by the pipeline; and a triggering statement
with no terminating period makes the pass emit the remainder unchanged
from that point on and stop scanning — for that pass only, as the last
conjunct shows a terminated statement before the unterminated one still
being rewritten. -/
theorem c3_passes_fail_open (today : List Char) :
    processSelect today [] = [] ∧
    processSort today [] = [] ∧
    processOrderby today [] = [] ∧
    processRead today [] = [] ∧
    remediate today [] = [] ∧
    processSelect today "SELECT SINGLE a FROM t".toList =
      "SELECT SINGLE a FROM t".toList ∧
    processSort today "SELECT a FROM t FOR ALL ENTRIES IN x INTO itab".toList =
      "SELECT a FROM t FOR ALL ENTRIES IN x INTO itab".toList ∧
    processOrderby today "SELECT a FROM t WHERE k = 1".toList =
      "SELECT a FROM t WHERE k = 1".toList ∧
    processRead today "READ TABLE t WITH KEY k = 1".toList =
      "READ TABLE t WITH KEY k = 1".toList ∧
    processSelect testDate "SELECT SINGLE a FROM t WHERE k = 1.\nSELECT SINGLE b FROM u".toList =
      ("\" Added By Pwc 2024-06-01\nSELECT a FROM t UP TO 1 ROWS WHERE k = 1.\n" ++
        "ENDSELECT.\nSELECT SINGLE b FROM u").toList :=
  ⟨by rfl, by rfl, by rfl, by rfl, by rfl, by rfl, by rfl, by rfl, by rfl, by rfl⟩

/-- Claim C4 (Scenario A): on `SELECT SINGLE f1 FROM t WHERE k = 1.` the
Bounded-Lookup pass keeps the field list `f1`, removes `SINGLE`, inserts
`UP TO 1 ROWS` immediately before `WHERE`, keeps the period, appends an
`ENDSELECT.` line after it, and puts the dated provenance comment line
above the statement. -/
theorem c4_scenario_a :
    processSelect testDate "SELECT SINGLE f1 FROM t WHERE k = 1.".toList =
      ("\" Added By Pwc 2024-06-01\n" ++
        "SELECT f1 FROM t UP TO 1 ROWS WHERE k = 1.\nENDSELECT.").toList := by
  rfl

/-- Claim C5, counterexample: the claim's inserted line `SORT result BY A B.`
(upper-case field names) does not occur in the output of `process_sort` on
Scenario B's input — the pass keeps the source case of the field names. -/
theorem c5_scenario_b_counterexample :
    hasSeg "SORT result BY A B.".toList
      (processSort testDate
        ("SELECT a, b FROM t FOR ALL ENTRIES IN itab WHERE k = itab-k " ++
          "INTO TABLE @DATA(result).").toList) = false := by
  decide

/-- Claim C5 as amended: the output equals the input with a
`SORT result BY a b.` line (field names in their source case) plus the
dated provenance tag line inserted after the statement's terminator, and
nothing else changed. -/
theorem c5_scenario_b_amended :
    processSort testDate
        ("SELECT a, b FROM t FOR ALL ENTRIES IN itab WHERE k = itab-k " ++
          "INTO TABLE @DATA(result).").toList =
      ("SELECT a, b FROM t FOR ALL ENTRIES IN itab WHERE k = itab-k " ++
        "INTO TABLE @DATA(result).\nSORT result BY a b.\n" ++
        "\" Added By Pwc 2024-06-01\n").toList := by
  rfl

/-- Claim C6, counterexample: the claimed clause `ORDER BY A` (upper-case)
does not occur in the output of `process_orderby` on Scenario C's input —
the pass keeps the source case of the field name. -/
theorem c6_scenario_c_counterexample :
    hasSeg "ORDER BY A".toList
      (processOrderby testDate "SELECT a FROM t WHERE k = 1.".toList) = false := by
  decide

/-- Claim C6 as amended: `ORDER BY a` (source case) is inserted after the
WHERE clause, before the terminating period, with the dated provenance tag
line above the statement. -/
theorem c6_scenario_c_amended :
    processOrderby testDate "SELECT a FROM t WHERE k = 1.".toList =
      ("\" Added By Pwc 2024-06-01\n" ++
        "SELECT a FROM t WHERE k = 1 ORDER BY a.").toList := by
  rfl

/-- Claim C7, counterexample: the claimed inserted line `SORT itab BY F1 F2.`
(upper-case field names) does not occur in the output of `process_read` on
Scenario D's input — the pass keeps the source case of the key fields. -/
theorem c7_scenario_d_counterexample :
    hasSeg "SORT itab BY F1 F2.".toList
      (processRead testDate "READ TABLE itab WITH KEY f1 = 1 f2 = 2.".toList) = false := by
  decide

/-- Claim C7 as amended: a `SORT itab BY f1 f2.` line (source case) plus the
dated provenance tag line is inserted immediately before the read
statement, and the read statement itself is byte-identical in the output. -/
theorem c7_scenario_d_amended :
    processRead testDate "READ TABLE itab WITH KEY f1 = 1 f2 = 2.".toList =
      ("SORT itab BY f1 f2.\n\" Added By Pwc 2024-06-01\n" ++
        "READ TABLE itab WITH KEY f1 = 1 f2 = 2.").toList := by
  rfl

/-- Claim C8, counterexample: the Explicit-Order pass does NOT drop a
no-alias call/expression column item — the generated ORDER BY clause
contains the raw expression text `count( a )`. -/
theorem c8_expression_counterexample :
    hasSeg "ORDER BY count( a )".toList
      (processOrderby testDate "SELECT count( a ), b FROM t WHERE k = 1.".toList) = true := by
  decide

/-- Claim C8 as amended: the Pre-Sort-For-Bulk-Lookup pass drops a no-alias
call/expression item from its SORT BY key list (here `count( a )` is
dropped and only `b` is kept), while the Explicit-Order pass keeps the raw
expression text in its generated ORDER BY clause. -/
theorem c8_amended :
    processSort testDate
        "SELECT count( a ), b FROM t FOR ALL ENTRIES IN x WHERE k = x-k INTO TABLE res.".toList =
      ("SELECT count( a ), b FROM t FOR ALL ENTRIES IN x WHERE k = x-k INTO TABLE res.\n" ++
        "SORT res BY b.\n\" Added By Pwc 2024-06-01\n").toList ∧
    processOrderby testDate "SELECT count( a ), b FROM t WHERE k = 1.".toList =
      ("\" Added By Pwc 2024-06-01\n" ++
        "SELECT count( a ), b FROM t WHERE k = 1 ORDER BY count( a ), b.").toList :=
  ⟨by rfl, by rfl⟩

/-- Claim C9: every pass terminates on every finite input.  Each pass is
its main loop run with fuel `length + 1`; the theorem shows that any
additional fuel leaves the result of every pass unchanged — i.e. each
main loop reaches its normal exit within `length + 1` iterations because
every iteration strictly advances the cursor (the `*_progress` lemmas,
which rest on the scanners and the statement-terminator search never
moving the cursor backwards, including when a string, template or comment
region stays open to end of input). -/
theorem c9_every_pass_terminates (today code : List Char) (k : Nat) :
    selLoop today code (code.length + 1 + k) 0 [] = processSelect today code ∧
    sortLoop today code (code.length + 1 + k) 0 [] = processSort today code ∧
    obLoop today code (code.length + 1 + k) 0 [] = processOrderby today code ∧
    readLoop today code (code.length + 1 + k) 0 [] = processRead today code :=
  ⟨selLoop_stab today code (code.length + 1 + k) (code.length + 1) 0 [] (by omega) (by omega),
   sortLoop_stab today code (code.length + 1 + k) (code.length + 1) 0 [] (by omega) (by omega),
   obLoop_stab today code (code.length + 1 + k) (code.length + 1) 0 [] (by omega) (by omega),
   readLoop_stab today code (code.length + 1 + k) (code.length + 1) 0 [] (by omega) (by omega)⟩

/-- Claim C10: `process_sort` and `process_read` are insertion-only — for
every input (and any pass date) the input is a subsequence of the output:
every character of the original input appears unchanged and in its
original order in the output, so existing statements are never edited or
deleted by these two passes (both passes only ever emit verbatim slices of
the input interleaved with freshly built SORT/tag insertions). -/
theorem c10_sort_read_insertion_only (today code : List Char) :
    List.Sublist code (processSort today code) ∧
    List.Sublist code (processRead today code) :=
  ⟨sortLoop_sub today code (code.length + 1) 0 [] (List.nil_sublist []),
   readLoop_sub today code (code.length + 1) 0 [] (List.nil_sublist [])⟩

end Remed
